import Mathlib

/-!
# Verification of the github-stars-crawler crawl orchestration engine

Shallow embedding of the repository's core components, translated from the
Python sources:

* `CrawlerService._get_optimized_queries_for_100k` (src/services/crawler_service.py)
* `CrawlerService.crawl_repositories` (GraphQL branch, src/services/crawler_service.py)
* `GitHubClient.search_repositories` (src/infrastructure/github_client.py)
* `async_retry` (src/infrastructure/retry.py)
* `RateLimit` / `RateLimiter.wait_if_needed` (src/infrastructure/rate_limiter.py)
* `Repository.from_github_response` (src/domain/repository.py)
* `SQLiteRepository.upsert_repositories` / `PostgreSQLRepository.upsert_repositories`
  (src/infrastructure/sqlite_repo.py, postgres_repo.py)

Machine integers are modelled as `Nat`/`Int` (Python integers are unbounded),
wall-clock instants as `Int` seconds, and exceptions as `Except`/`Option`
values.  Asynchronous generators become explicit fuel-indexed loops returning
the list of yielded batches together with the reason the loop stopped.
-/

namespace StarsCrawler

/-! ## Query partitioner

`CrawlerService._get_optimized_queries_for_100k` builds a list of GitHub
search-query strings of three shapes: `stars:N`, `stars:LO..HI` and
`stars:>N`.  We embed the query strings as an inductive type carrying the
numeric payload, with `matchesQ` giving the search semantics of each shape
(exact count, inclusive range, strictly-greater). -/

/-- A star-count search query string: `stars:n`, `stars:lo..hi`, `stars:>n`. -/
inductive StarQuery where
  | exact (n : ℕ)
  | range (lo hi : ℕ)
  | gt (n : ℕ)
  deriving DecidableEq, Repr

/-- Does star count `s` match the query?  `stars:n` is equality,
`stars:lo..hi` is the inclusive range, `stars:>n` is strictly greater. -/
def matchesQ (q : StarQuery) (s : ℕ) : Bool :=
  match q with
  | .exact n => s == n
  | .range lo hi => decide (lo ≤ s) && decide (s ≤ hi)
  | .gt n => decide (n < s)

/-- Smallest star count matched by a query. -/
def qLo : StarQuery → ℕ
  | .exact n => n
  | .range lo _ => lo
  | .gt n => n + 1

/-- Largest star count matched by a query, `none` when unbounded above. -/
def qHi : StarQuery → Option ℕ
  | .exact n => some n
  | .range _ hi => some hi
  | .gt _ => none

/-- Embedding of `CrawlerService._get_optimized_queries_for_100k`.  Each
Python `for`/`range(a, b, step)` loop becomes a `List.range'` with the same
start, element count and step; the three trailing queries are appended
literally, mirroring the source. -/
def optimizedQueries : List StarQuery :=
  ((List.range 11).map .exact)
    ++ ((List.range' 11 9 10).map fun s => .range s (s + 9))
    ++ ((List.range' 101 18 50).map fun s => .range s (s + 49))
    ++ ((List.range' 1001 18 500).map fun s => .range s (s + 499))
    ++ ((List.range' 10001 40 1000).map fun s => .range s (s + 999))
    ++ [.range 50001 75000, .range 75001 100000, .gt 100000]

/-- `goodFromB a l`: the queries in `l` are consecutive intervals starting
exactly at `a`, each nonempty, with only the last unbounded above. -/
def goodFromB : ℕ → List StarQuery → Bool
  | _, [] => false
  | a, [q] => qLo q == a && (qHi q).isNone
  | a, q :: q' :: rest =>
    match qHi q with
    | none => false
    | some h => qLo q == a && decide (a ≤ h) && goodFromB (h + 1) (q' :: rest)

/-- Boolean check that a query list is strictly ascending in lower bounds. -/
def ascLoB : List StarQuery → Bool
  | [] => true
  | [_] => true
  | q :: q' :: rest => decide (qLo q < qLo q') && ascLoB (q' :: rest)

/-- Width schedule for bounded shards as the spec's words prescribe it:
unit width up to star count 10, width 10 up to 100, width 50 up to 1000,
width 500 up to 50000, width 1000 beyond. -/
def specWidthB (q : StarQuery) : Bool :=
  match qHi q with
  | none => true
  | some h =>
    let w := h + 1 - qLo q
    if h ≤ 10 then w == 1
    else if h ≤ 100 then w == 10
    else if h ≤ 1000 then w == 50
    else if h ≤ 50000 then w == 500
    else w == 1000

/-- Width schedule for bounded shards as the code actually emits it:
unit width up to 10, width 10 up to 100, width 50 up to 1000, width 500 up
to 10000, width 1000 up to 50000, and width 25000 up to 100000. -/
def codeWidthB (q : StarQuery) : Bool :=
  match qHi q with
  | none => true
  | some h =>
    let w := h + 1 - qLo q
    if h ≤ 10 then w == 1
    else if h ≤ 100 then w == 10
    else if h ≤ 1000 then w == 50
    else if h ≤ 10000 then w == 500
    else if h ≤ 50000 then w == 1000
    else w == 25000

/-! ## Rate limiter

Embedding of `RateLimit` and `RateLimiter.wait_if_needed`
(src/infrastructure/rate_limiter.py).  A Python `datetime` is an instant in
seconds plus an optional UTC offset: offset-naive values carry none,
offset-aware values carry one, and Python raises a `TypeError` when asked
to subtract values of mixed awareness.  This matters here:
`RateLimiter.update` parses `resetAt` via
`fromisoformat(resetAt.replace("Z", "+00:00"))`, which for the Zulu
timestamps the API reports yields an offset-aware datetime, while
`seconds_until_reset` subtracts the offset-naive `datetime.now()` from it.
`wait_if_needed` is therefore modelled as returning either the number of
seconds slept or the error the call raises. -/

/-- A Python `datetime`: an instant (seconds) plus an optional UTC offset;
`tz = none` is offset-naive, `tz = some o` offset-aware.  For aware values
`seconds` is the absolute UTC instant, so same-awareness subtraction is
plain difference. -/
structure PyDateTime where
  seconds : ℤ
  tz : Option ℤ
  deriving DecidableEq

/-- The `TypeError` CPython raises when subtracting datetimes of mixed
awareness (message paraphrased). -/
def mixedAwarenessError : String :=
  "TypeError: cannot subtract offset-naive and offset-aware datetimes"

/-- Python datetime subtraction, in seconds: defined between two naive or
two aware values; mixed awareness raises. -/
def pySub (a b : PyDateTime) : Except String ℤ :=
  if a.tz.isSome = b.tz.isSome then .ok (a.seconds - b.seconds)
  else .error mixedAwarenessError

/-- GitHub API rate-limit information (`RateLimit` dataclass): total points,
points remaining, reset instant, cost of the last query. -/
structure RateLimit where
  limit : ℕ
  remaining : ℕ
  reset_at : PyDateTime
  cost : ℕ
  deriving DecidableEq

/-- `RateLimit.is_exhausted`: remaining below the 100-point safety buffer. -/
def RateLimit.is_exhausted (rl : RateLimit) : Bool :=
  decide (rl.remaining < 100)

/-- `RateLimit.seconds_until_reset`:
`max(0, (reset_at - datetime.now()).total_seconds())`, where `now` is the
offset-naive value `datetime.now()` returns and the subtraction raises on
mixed awareness. -/
def RateLimit.seconds_until_reset (rl : RateLimit) (now : PyDateTime) :
    Except String ℤ :=
  (pySub rl.reset_at now).map fun d => max 0 d

/-- `RateLimiter.update`: always replaces the stored quota state with the
most recent report; `resetAt` is parsed with
`fromisoformat(resetAt.replace("Z", "+00:00"))`, so for the Zulu
timestamps the API reports the stored `reset_at` is offset-aware (UTC). -/
def RateLimiter.update (limit remaining : ℕ) (resetInstant : ℤ) (cost : ℕ) :
    Option RateLimit :=
  some ⟨limit, remaining, ⟨resetInstant, some 0⟩, cost⟩

/-- `RateLimiter.wait_if_needed` invoked when the wall clock reads `now`
(the offset-naive `datetime.now()`): returns the number of seconds slept,
or the error the call raises.  With no quota state or a non-exhausted
limit it returns at once; on the exhausted branch it evaluates
`seconds_until_reset` — whose mixed-awareness subtraction raises before
any sleep can happen — and would otherwise sleep that duration plus the
5-second buffer. -/
def wait_if_needed (cur : Option RateLimit) (now : PyDateTime) :
    Except String ℤ :=
  match cur with
  | none => .ok 0
  | some rl =>
    if rl.is_exhausted then
      match rl.seconds_until_reset now with
      | .error e => .error e
      | .ok w => if w > 0 then .ok (w + 5) else .ok 0
    else .ok 0

/-! ## Retry policy

Embedding of `async_retry` (src/infrastructure/retry.py).  The wrapped
operation is modelled as a function from the attempt index to its outcome
(`ok` value or `fail` with an exception message).  The wrapper's behaviour —
which attempts it performs, what it returns or raises — is captured as a
`RetryRun`: the number of invocations made plus the final outcome.  Sleeping
and backoff delays do not affect which attempts occur, so they are omitted. -/

/-- Outcome of one invocation of the wrapped operation. -/
inductive OpResult where
  | ok (v : ℕ)
  | fail (msg : String)
  deriving DecidableEq

/-- How a run of the retry wrapper ends: a returned value, an immediately
re-raised (authorization) error, or a `RetryException` carrying the last
underlying cause. -/
inductive RetryOutcome where
  | value (v : ℕ)
  | raised (msg : String)
  | exhausted (last : Option String)
  deriving DecidableEq

/-- A run of the retry wrapper: how many times the operation was invoked,
and the final outcome. -/
structure RetryRun where
  calls : ℕ
  outcome : RetryOutcome
  deriving DecidableEq

/-- Python's `str.lower()` as a character list (ASCII case folding suffices
for the markers checked). -/
def pyLower (s : String) : List Char := s.toList.map Char.toLower

/-- Python's `needle in hay` substring test. -/
def strContainsSub (hay : List Char) (needle : String) : Bool :=
  (List.range (hay.length + 1)).any fun i => needle.toList.isPrefixOf (hay.drop i)

/-- The authorization markers checked by `async_retry`. -/
def authMarkers : List String := ["unauthorized", "forbidden", "bad credentials"]

/-- `any(x in error_message for x in [...])` on the lowercased message. -/
def isAuthMsg (msg : String) : Bool :=
  authMarkers.any fun mk => strContainsSub (pyLower msg) mk

/-- The `for attempt in range(max_attempts)` loop of `async_retry`:
`remaining` counts loop iterations left, `attempt` is the index of the next
invocation, `lastExc` the last exception seen.  A successful call returns its
value; an authorization-classified failure re-raises at once; any other
failure retries; when the loop ends, `RetryException` is raised carrying the
last cause. -/
def retryGo (op : ℕ → OpResult) : ℕ → ℕ → Option String → RetryRun
  | 0, attempt, lastExc => ⟨attempt, .exhausted lastExc⟩
  | remaining + 1, attempt, _ =>
    match op attempt with
    | .ok v => ⟨attempt + 1, .value v⟩
    | .fail m =>
      if isAuthMsg m then ⟨attempt + 1, .raised m⟩
      else retryGo op remaining (attempt + 1) (some m)

/-- `async_retry(max_attempts)` applied to operation `op`. -/
def async_retry (maxAttempts : ℕ) (op : ℕ → OpResult) : RetryRun :=
  retryGo op maxAttempts 0 none

/-! ## Domain record

Embedding of `Repository` and `Repository.from_github_response`
(src/domain/repository.py).  A raw GraphQL node carries an optional
`databaseId`, an optional `id` (which may be a GraphQL node-ID string), the
`nameWithOwner` and the `stargazerCount`.  Python's salted `hash` builtin is
a parameter `hashF`, and `datetime.now(timezone.utc)` is a parameter `now`;
a raised exception (e.g. `int()` on a non-numeric value) becomes `none`. -/

/-- A GitHub id value in a raw node: a number or a string node-ID. -/
inductive GhId where
  | num (n : ℤ)
  | str (s : String)
  deriving DecidableEq

/-- Python truthiness of an optional id: `None`, `0` and `""` are falsy. -/
def ghIdTruthy : Option GhId → Bool
  | none => false
  | some (.num n) => decide (n ≠ 0)
  | some (.str s) => decide (s ≠ "")

/-- Python `a or b`. -/
def pyOr (a b : Option GhId) : Option GhId :=
  if ghIdTruthy a then a else b

/-- `isinstance(x, str) and x.startswith('R_')`. -/
def isNodeIdStr : GhId → Bool
  | .num _ => false
  | .str s => "R_".toList.isPrefixOf s.toList

/-- Python `int(x)` on an id value; `none` models the raised `ValueError`. -/
def ghIdToInt : GhId → Option ℤ
  | .num n => some n
  | .str s => s.toInt?

/-- A raw GraphQL repository node, as consumed by `from_github_response`.
`nodeId` is the `id` key. -/
structure RawRepoData where
  databaseId : Option GhId
  nodeId : Option GhId
  nameWithOwner : String
  stargazerCount : ℤ
  deriving DecidableEq

/-- The `Repository` frozen dataclass: numeric id, canonical name, star
count, and the optional timestamps. -/
structure Repository where
  id : ℤ
  full_name : String
  star_count : ℤ
  created_at : Option ℤ := none
  updated_at : Option ℤ := none
  last_crawled_at : Option ℤ := none
  deriving DecidableEq

/-- The id-extraction steps of `from_github_response`: take
`databaseId or id`, replace a GraphQL `R_…` node-ID string by
`abs(hash(nameWithOwner)) % 10**10`, and convert to an integer; `none`
models a raised exception. -/
def deriveId (hashF : String → ℤ) (data : RawRepoData) : Option ℤ :=
  match pyOr data.databaseId data.nodeId with
  | none => none
  | some g =>
    ghIdToInt (if isNodeIdStr g then
      .num (((hashF data.nameWithOwner).natAbs % 10 ^ 10 : ℕ) : ℤ) else g)

/-- `Repository.from_github_response(data)` invoked when the process hash
function is `hashF` and the clock reads `now`: derive the numeric id and
stamp `last_crawled_at` with the current instant; `none` models a raised
exception (the caller skips such items). -/
def from_github_response (hashF : String → ℤ) (now : ℤ) (data : RawRepoData) :
    Option Repository :=
  (deriveId hashF data).map fun n =>
    { id := n, full_name := data.nameWithOwner,
      star_count := data.stargazerCount, last_crawled_at := some now }

/-! ## Persistence sink

Embedding of `upsert_repositories` (src/infrastructure/sqlite_repo.py and
src/infrastructure/postgres_repo.py — both backends execute the same
`INSERT … ON CONFLICT(id) DO UPDATE SET star_count, last_crawled_at,
updated_at = CURRENT_TIMESTAMP` statement, so one state-transition model
covers both).  The store is the list of table rows; `CURRENT_TIMESTAMP` /
`NOW()` is the parameter `now`.  A `UNIQUE` violation on `full_name` raises,
and the surrounding transaction is never committed, so an error leaves the
store unchanged (the sink's all-or-nothing batch-write contract). -/

/-- One row of the `repositories` table. -/
structure DbRow where
  id : ℤ
  full_name : String
  star_count : ℤ
  created_at : ℤ
  updated_at : ℤ
  last_crawled_at : ℤ
  deriving DecidableEq

/-- Effect of the `ON CONFLICT(id) DO UPDATE` arm on one existing row:
a row with the conflicting id gets the new star count and last-crawled
stamp (`excluded.last_crawled_at`, defaulting to the call's clock when the
record carries none) and a refreshed `updated_at`; other rows are untouched. -/
def upsertRow (now : ℤ) (r : Repository) (row : DbRow) : DbRow :=
  if row.id = r.id then
    ⟨row.id, row.full_name, r.star_count, row.created_at, now,
      r.last_crawled_at.getD now⟩
  else row

/-- The row inserted for a fresh id: `created_at` and `updated_at` take the
`CURRENT_TIMESTAMP` column defaults. -/
def newRow (now : ℤ) (r : Repository) : DbRow :=
  ⟨r.id, r.full_name, r.star_count, now, now, r.last_crawled_at.getD now⟩

/-- Does the store hold a row with id `i` (the `ON CONFLICT(id)` test)? -/
def hasIdB (s : List DbRow) (i : ℤ) : Bool :=
  s.any fun row => row.id == i

/-- Does the store hold a row named `nm` (the `full_name` UNIQUE test)? -/
def hasNameB (s : List DbRow) (nm : String) : Bool :=
  s.any fun row => row.full_name == nm

/-- One `INSERT … ON CONFLICT(id) DO UPDATE` statement: update when the id
exists, raise on a `full_name` UNIQUE violation, insert otherwise.  The
statement reports 1 affected row on both the insert and the update path. -/
def upsertOne (now : ℤ) (s : List DbRow) (r : Repository) :
    Except String (List DbRow × ℕ) :=
  if hasIdB s r.id then
    .ok (s.map (upsertRow now r), 1)
  else if hasNameB s r.full_name then
    .error "UNIQUE constraint failed: repositories.full_name"
  else
    .ok (s ++ [newRow now r], 1)

/-- The `for repo in repos` loop of `upsert_repositories`, accumulating
`rows_affected`. -/
def upsertGo (now : ℤ) : List DbRow → ℕ → List Repository →
    Except String (List DbRow × ℕ)
  | s, acc, [] => .ok (s, acc)
  | s, acc, r :: rest =>
    match upsertOne now s r with
    | .error e => .error e
    | .ok (s', k) => upsertGo now s' (acc + k) rest

/-- `upsert_repositories(repos)` on store `s` at clock instant `now`:
returns the new store and the accumulated `rows_affected`, or the raised
error (leaving the store as it was — the transaction never commits). -/
def upsert_repositories (now : ℤ) (s : List DbRow) (repos : List Repository) :
    Except String (List DbRow × ℕ) :=
  upsertGo now s 0 repos

/-- Last element of the batch writing id `i` (later writers win). -/
def lastWriter : List Repository → ℤ → Option Repository
  | [], _ => none
  | r :: rest, i =>
    match lastWriter rest i with
    | some r' => some r'
    | none => if r.id = i then some r else none

/-- Repeated application of the update arm for one row across a batch. -/
def applyAll (now : ℤ) (b : List Repository) (row : DbRow) : DbRow :=
  b.foldl (fun row r => upsertRow now r row) row

/-- A store is settled for a batch at instant `now` when every row whose id
the batch writes already carries the last writer's star count, its
last-crawled stamp, and `updated_at = now`. -/
def Settled (now : ℤ) (b : List Repository) (s : List DbRow) : Prop :=
  ∀ row ∈ s, ∀ r', lastWriter b row.id = some r' →
    row.star_count = r'.star_count ∧
      row.last_crawled_at = r'.last_crawled_at.getD now ∧
      row.updated_at = now

/-! ## Paging fetcher

Embedding of `GitHubClient.search_repositories`
(src/infrastructure/github_client.py).  The remote executor
(`_execute_query` with its retry/rate-limit wrappers) is a function from
the call index within the shard and the requested page size (`first`) to
either a response or a raised error (a transport failure, an authorization
re-raise, or `RetryException` after exhaustion).  A raw node is modelled by
its parse outcome — `some r` when `Repository.from_github_response`
succeeds, `none` when it raises and the item is skipped.  The async
generator becomes a fuel-indexed loop returning the yielded batches, a log
of `(total_fetched at call time, requested size)` pairs, the final fetched
count and the reason the loop stopped.  Fuel only truncates runs that the
Python loop would continue (`fuelOut`); no claim relies on a truncated
branch. -/

/-- One executor outcome: a page of raw nodes with pagination metadata, or
a raised error. -/
inductive ExecResult where
  | ok (nodes : List (Option Repository)) (hasNextPage : Bool) (endCursor : Option ℕ)
  | err (msg : String)
  deriving DecidableEq

/-- Why the fetch loop for one shard stopped: target cap reached, empty
node list, `hasNextPage` false, an exception caught by the loop's
`except`-and-`break`, or fuel exhausted (model artefact). -/
inductive StopReason where
  | capReached
  | noNodes
  | endOfResults
  | errorCaught
  | fuelOut
  deriving DecidableEq

/-- Loop state of `search_repositories`: the pagination cursor, the running
`total_fetched`, and the current (possibly already shrunk) `batch_size`. -/
structure SearchState where
  cursor : Option ℕ
  total_fetched : ℕ
  batch_size : ℕ
  deriving DecidableEq

/-- Result of driving one shard: yielded batches, the request log, the
final fetched count, and the stop reason. -/
structure SearchResult where
  batches : List (List Repository)
  requests : List (ℕ × ℕ)
  total_fetched : ℕ
  reason : StopReason
  deriving DecidableEq

/-- Python truthiness of the `max_repos` argument: `None` and `0` are
falsy, any other integer is truthy. -/
def maxTruthy : Option ℕ → Bool
  | none => false
  | some n => n != 0

/-- The `while True` loop of `search_repositories`: stop when a truthy
`max_repos` is reached; shrink the batch size to the remaining budget;
invoke the executor; break on a caught exception; break on an empty node
list; parse (skipping failed items), count, and yield a non-empty batch;
break when no next page; otherwise advance the cursor and loop. -/
def searchGo (exec : ℕ → ℕ → ExecResult) (max_repos : Option ℕ) :
    ℕ → ℕ → SearchState → SearchResult
  | 0, _, st => ⟨[], [], st.total_fetched, .fuelOut⟩
  | fuel + 1, callIdx, st =>
    if maxTruthy max_repos && decide (max_repos.getD 0 ≤ st.total_fetched) then
      ⟨[], [], st.total_fetched, .capReached⟩
    else
      let bs := if maxTruthy max_repos
        then min st.batch_size (max_repos.getD 0 - st.total_fetched)
        else st.batch_size
      match exec callIdx bs with
      | .err _ => ⟨[], [(st.total_fetched, bs)], st.total_fetched, .errorCaught⟩
      | .ok nodes hasNextPage endCursor =>
        if nodes.isEmpty then
          ⟨[], [(st.total_fetched, bs)], st.total_fetched, .noNodes⟩
        else
          let repositories := nodes.reduceOption
          let total' := st.total_fetched + repositories.length
          let yielded := if repositories.isEmpty then [] else [repositories]
          if hasNextPage then
            let tail := searchGo exec max_repos fuel (callIdx + 1)
              ⟨endCursor, total', bs⟩
            ⟨yielded ++ tail.batches, (st.total_fetched, bs) :: tail.requests,
              tail.total_fetched, tail.reason⟩
          else
            ⟨yielded, [(st.total_fetched, bs)], total', .endOfResults⟩

/-- `search_repositories(query, max_repos)` for one shard, started with no
cursor, zero fetched and the configured batch size. -/
def search_repositories (exec : ℕ → ℕ → ExecResult) (max_repos : Option ℕ)
    (batch_size : ℕ) (fuel : ℕ) : SearchResult :=
  searchGo exec max_repos fuel 0 ⟨none, 0, batch_size⟩

/-- The executor honors the requested page size: an `ok` response never
carries more nodes than the `first` argument asked for. -/
def HonorsFirst (exec : ℕ → ℕ → ExecResult) : Prop :=
  ∀ i b nodes hnp ec, exec i b = .ok nodes hnp ec → nodes.length ≤ b

/-! ## Crawl orchestrator

Embedding of `CrawlerService.crawl_repositories` (GraphQL branch,
src/services/crawler_service.py).  Collaborators become an explicit
environment: the executor indexed by shard, the sink's per-call
`upsert_repositories` outcome, and the two `get_repository_count` reads.
The model is eager where the Python generator is lazy; this is observable
only through executor calls after an aborting upsert failure, which no
result field records.  `writes` logs the cumulative `total_saved`
immediately after each successful persistence write, and `shardCaps` logs
`(total_saved at shard start, query_limit)` for each shard started. -/

/-- Environment of one crawl run. -/
structure CrawlEnv where
  exec : ℕ → ℕ → ℕ → ExecResult
  upsertResults : ℕ → Except String ℕ
  count0 : Except String ℕ
  countFinal : Except String ℕ

/-- Orchestrator counters plus instrumentation. -/
structure OrchState where
  total_saved : ℕ
  total_batches : ℕ
  writeIdx : ℕ
  writes : List ℕ
  shardCaps : List (ℕ × ℕ)
  reasons : List StopReason
  deriving DecidableEq

/-- The crawl statistics dictionary returned by `crawl_repositories`:
`error`, `final_count` and `new_repos` are present only on the paths that
set them. -/
structure CrawlResult where
  success : Bool
  error : Option String
  total_crawled : ℕ
  total_batches : ℕ
  final_count : Option ℕ
  new_repos : Option ℤ
  writes : List ℕ
  shardCaps : List (ℕ × ℕ)
  reasons : List StopReason
  deriving DecidableEq

/-- The `async for batch in …` body: upsert the batch, then add its length
to `total_saved` and bump `total_batches`.  A raised upsert error aborts
with the counters as they stood before the failing batch was counted. -/
def writeBatches (upsertResults : ℕ → Except String ℕ) :
    List (List Repository) → OrchState → Except (String × OrchState) OrchState
  | [], st => .ok st
  | batch :: rest, st =>
    match upsertResults st.writeIdx with
    | .error e => .error (e, st)
    | .ok _rows =>
      let total' := st.total_saved + batch.length
      writeBatches upsertResults rest
        ⟨total', st.total_batches + 1, st.writeIdx + 1, st.writes ++ [total'],
          st.shardCaps, st.reasons⟩

/-- The `for idx, query in enumerate(queries)` loop: stop when the target
is reached; compute the shard's local cap `min(1000, max_repos −
total_saved)`; drive the fetcher; persist each yielded batch; propagate a
raised persistence error. -/
def shardLoop (env : CrawlEnv) (max_repos : ℕ) (batch_size : ℕ) (fuel : ℕ) :
    List StarQuery → ℕ → OrchState → Except (String × OrchState) OrchState
  | [], _, st => .ok st
  | _q :: rest, shardIdx, st =>
    if max_repos ≤ st.total_saved then .ok st
    else
      let query_limit := min 1000 (max_repos - st.total_saved)
      let res := search_repositories (env.exec shardIdx) (some query_limit)
        batch_size fuel
      match writeBatches env.upsertResults res.batches
          { st with shardCaps := st.shardCaps ++ [(st.total_saved, query_limit)],
                    reasons := st.reasons ++ [res.reason] } with
      | .error p => .error p
      | .ok st' => shardLoop env max_repos batch_size fuel rest (shardIdx + 1) st'

/-- `crawl_repositories(queries, max_repos)` (GraphQL branch).  The initial
`get_repository_count` runs before the `try` block, so its failure escapes
(the `Except.error` result); every failure inside the block resolves to a
statistics dictionary with `success = False`, the error string and the
partial counters; the success path re-reads the count and reports
`new_repos = final_count − start_count`. -/
def crawl_repositories (env : CrawlEnv) (queries : List StarQuery)
    (max_repos : ℕ) (batch_size : ℕ) (fuel : ℕ) : Except String CrawlResult :=
  match env.count0 with
  | .error e => .error e
  | .ok start_count =>
    match shardLoop env max_repos batch_size fuel queries 0 ⟨0, 0, 0, [], [], []⟩ with
    | .error (e, st) =>
      .ok ⟨false, some e, st.total_saved, st.total_batches, none, none,
        st.writes, st.shardCaps, st.reasons⟩
    | .ok st =>
      match env.countFinal with
      | .error e =>
        .ok ⟨false, some e, st.total_saved, st.total_batches, none, none,
          st.writes, st.shardCaps, st.reasons⟩
      | .ok final_count =>
        .ok ⟨true, none, st.total_saved, st.total_batches, some final_count,
          some ((final_count : ℤ) - (start_count : ℤ)), st.writes,
          st.shardCaps, st.reasons⟩

/-- Environment whose executor always raises (a retries-exhausted error)
while persistence and both count reads succeed. -/
def envExecFails : CrawlEnv :=
  ⟨fun _ _ _ => .err "RetryException: Failed after 3 attempts. Last error: timeout",
   fun _ => .ok 1, .ok 0, .ok 0⟩

/-- Environment whose initial `get_repository_count` raises. -/
def envCount0Fails : CrawlEnv :=
  ⟨fun _ _ _ => .ok [] true none, fun _ => .ok 1,
   .error "database connection failed", .ok 0⟩

/-- Counter invariant: `total_batches` counts the persisted batches and
`total_saved` is the cumulative count after the last persisted batch. -/
def CountersOk (st : OrchState) : Prop :=
  st.total_batches = st.writes.length ∧ st.total_saved = st.writes.getLastD 0

/-- Sum of the lengths of the yielded batches. -/
def sumLens (l : List (List Repository)) : ℕ :=
  (l.map List.length).sum

/-- Environment whose executor returns exactly the requested number of
parseable nodes and always reports another page, with a healthy sink. -/
def envC1 : CrawlEnv :=
  ⟨fun _ _ b => .ok (List.replicate b (some ⟨1, "octocat/r", 1, none, none, none⟩))
      true none,
   fun _ => .ok 1, .ok 0, .ok 0⟩

/-! ## Theorems -/

theorem matchesQ_iff (q : StarQuery) (s : ℕ) :
    matchesQ q s = true ↔ qLo q ≤ s ∧ ∀ h, qHi q = some h → s ≤ h := by
  cases q with
  | exact n =>
    simp [matchesQ, qLo, qHi]
    omega
  | range lo hi =>
    simp [matchesQ, qLo, qHi]
  | gt n =>
    simp [matchesQ, qLo, qHi]
    omega

theorem goodFromB_count (l : List StarQuery) : ∀ a : ℕ, goodFromB a l = true →
    ∀ s : ℕ, l.countP (fun q => matchesQ q s) = if a ≤ s then 1 else 0 := by
  induction l with
  | nil => intro a h; simp [goodFromB] at h
  | cons q rest ih =>
    intro a h s
    cases rest with
    | nil =>
      simp only [goodFromB, Bool.and_eq_true, beq_iff_eq, Option.isNone_iff_eq_none] at h
      obtain ⟨hlo, hhi⟩ := h
      have hm : matchesQ q s = true ↔ a ≤ s := by
        rw [matchesQ_iff]
        constructor
        · intro ⟨h1, _⟩; omega
        · intro h1; exact ⟨by omega, fun h2 hh => by rw [hhi] at hh; cases hh⟩
      by_cases hc : a ≤ s
      · simp [List.countP_cons, hm.mpr hc, hc]
      · have : ¬ matchesQ q s = true := fun hx => hc (hm.mp hx)
        simp [List.countP_cons, hc]
        simpa using this
    | cons q' rest' =>
      simp only [goodFromB] at h
      cases hqh : qHi q with
      | none => rw [hqh] at h; simp at h
      | some hi =>
        rw [hqh] at h
        simp only [Bool.and_eq_true, beq_iff_eq, decide_eq_true_eq] at h
        obtain ⟨⟨hlo, hle⟩, hrest⟩ := h
        have ihr := ih (hi + 1) hrest s
        have hm : matchesQ q s = true ↔ a ≤ s ∧ s ≤ hi := by
          rw [matchesQ_iff]
          constructor
          · intro ⟨h1, h2⟩; exact ⟨by omega, h2 hi hqh⟩
          · intro ⟨h1, h2⟩
            exact ⟨by omega, fun h3 hh => by rw [hqh] at hh; injection hh with he; omega⟩
        rcases Decidable.em (matchesQ q s = true) with hT | hF
        · obtain ⟨h1, h2⟩ := hm.mp hT
          rw [List.countP_cons, ihr, if_pos hT, if_neg (by omega : ¬ hi + 1 ≤ s),
            if_pos (by omega : a ≤ s)]
        · rw [List.countP_cons, ihr, if_neg hF]
          have hn : ¬ (a ≤ s ∧ s ≤ hi) := fun hc => hF (hm.mpr hc)
          by_cases hc1 : a ≤ s
          · rw [if_pos (by omega : hi + 1 ≤ s), if_pos hc1]
          · rw [if_neg (by omega : ¬ hi + 1 ≤ s), if_neg hc1]

theorem optimizedQueries_goodFrom : goodFromB 0 optimizedQueries = true := by decide

theorem ascLoB_chain : ∀ l : List StarQuery, ascLoB l = true →
    List.Chain' (fun q q' => qLo q < qLo q') l := by
  intro l
  induction l with
  | nil => intro; exact List.chain'_nil
  | cons q rest ih =>
    intro h
    cases rest with
    | nil => exact List.chain'_singleton q
    | cons q' rest' =>
      simp only [ascLoB, Bool.and_eq_true, decide_eq_true_eq] at h
      exact List.chain'_cons.mpr ⟨h.1, ih h.2⟩

/-- **C4.** The partitioner's shard list exactly covers `[0, ∞)`: every
star count matches exactly one generated query (no gaps, no overlaps), and
the queries are emitted in ascending order of their lower bound. -/
theorem optimizedQueries_cover_exactly_once :
    (∀ s : ℕ, optimizedQueries.countP (fun q => matchesQ q s) = 1) ∧
      List.Chain' (fun q q' => qLo q < qLo q') optimizedQueries := by
  constructor
  · intro s
    have := goodFromB_count optimizedQueries 0 optimizedQueries_goodFrom s
    simpa using this
  · exact ascLoB_chain optimizedQueries (by decide)

/-- **C5 counterexample.**  The shard `stars:10001..11000` is produced by the
partitioner, lies below 50000, and has width 1000, not the width 500 the
claimed schedule prescribes; so not every emitted shard follows the claimed
widths. -/
theorem optimizedQueries_specWidth_fails :
    StarQuery.range 10001 11000 ∈ optimizedQueries ∧
      specWidthB (StarQuery.range 10001 11000) = false ∧
      ¬ (∀ q ∈ optimizedQueries, specWidthB q = true) := by
  refine ⟨by decide, by decide, fun h => ?_⟩
  exact absurd (h (StarQuery.range 10001 11000) (by decide)) (by decide)

/-- **C5 amended.**  Every bounded shard the partitioner emits follows the
code's width schedule — unit widths for 0..10, width 10 up to 100, width 50
up to 1000, width 500 up to 10000, width 1000 up to 50000, width 25000 up to
100000 — and exactly one emitted shard is open-ended (the extreme tail). -/
theorem optimizedQueries_codeWidth :
    optimizedQueries.all codeWidthB = true ∧
      optimizedQueries.countP (fun q => (qHi q).isNone) = 1 := by
  constructor <;> decide

/-- **C7 (code bug).** The claim states the intended quota gate, and the
code documents the same intent (the docstring of `wait_if_needed` and its
printed "Waiting … seconds until reset" message), but the implementation
cannot exhibit it: `update` stores an offset-aware `reset_at`
(rate_limiter.py line 46) while `seconds_until_reset` subtracts the
offset-naive `datetime.now()` from it (line 22), which raises a
`TypeError`.  So an acquire with `remaining` at or above the 100-unit
buffer does return immediately as claimed, but every acquire below the
buffer raises at the `seconds_until_reset` call instead of suspending
until the reset instant plus the safety margin. -/
theorem wait_if_needed_quota_bug (limit remaining : ℕ) (resetInstant t : ℤ)
    (cost : ℕ) :
    (100 ≤ remaining →
      wait_if_needed (RateLimiter.update limit remaining resetInstant cost)
        ⟨t, none⟩ = .ok 0) ∧
      (remaining < 100 →
        wait_if_needed (RateLimiter.update limit remaining resetInstant cost)
          ⟨t, none⟩ = .error mixedAwarenessError) := by
  constructor
  · intro h
    have hx : RateLimit.is_exhausted ⟨limit, remaining, ⟨resetInstant, some 0⟩, cost⟩
        = false := by
      simp [RateLimit.is_exhausted]
      omega
    simp [wait_if_needed, RateLimiter.update, hx]
  · intro h
    have hx : RateLimit.is_exhausted ⟨limit, remaining, ⟨resetInstant, some 0⟩, cost⟩
        = true := by
      simp [RateLimit.is_exhausted]
      omega
    simp [wait_if_needed, RateLimiter.update, hx, RateLimit.seconds_until_reset, pySub,
      Except.map]

/-- Witness for C7 at concrete quota states: with 4500 points remaining the
acquire returns at once; with 50 points remaining it raises the
mixed-awareness `TypeError` instead of sleeping until reset. -/
theorem wait_if_needed_quota_bug_witness :
    wait_if_needed (RateLimiter.update 5000 4500 100 1) ⟨0, none⟩ = .ok 0 ∧
      wait_if_needed (RateLimiter.update 5000 50 100 1) ⟨0, none⟩ =
        .error mixedAwarenessError :=
  ⟨(wait_if_needed_quota_bug 5000 4500 100 0 1).1 (by decide),
   (wait_if_needed_quota_bug 5000 50 100 0 1).2 (by decide)⟩

theorem retryGo_all_fail (op : ℕ → OpResult) (msgs : ℕ → String) :
    ∀ (k attempt : ℕ) (lastExc : Option String),
      (∀ i, attempt ≤ i → i < attempt + k →
        op i = .fail (msgs i) ∧ isAuthMsg (msgs i) = false) →
      retryGo op k attempt lastExc =
        ⟨attempt + k,
          .exhausted (if k = 0 then lastExc else some (msgs (attempt + k - 1)))⟩ := by
  intro k
  induction k with
  | zero => intro attempt lastExc _; simp [retryGo]
  | succ n ih =>
    intro attempt lastExc hop
    have h0 := hop attempt (le_refl _) (by omega)
    rw [retryGo, h0.1]
    dsimp only
    rw [if_neg (by rw [h0.2]; exact Bool.false_ne_true)]
    rw [ih (attempt + 1) (some (msgs attempt)) (fun i h1 h2 => hop i (by omega) (by omega))]
    rcases Nat.eq_zero_or_pos n with hn | hn
    · subst hn; simp
    · have hne : ¬ (n = 0) := by omega
      have hne' : ¬ (n + 1 = 0) := by omega
      rw [if_neg hne, if_neg hne']
      have : attempt + 1 + n - 1 = attempt + (n + 1) - 1 := by omega
      rw [this]
      congr 1
      omega

/-- **C3.** Retry bound and authorization classification of `async_retry`
with `max_attempts = M`: an operation that fails on every attempt with a
retryable (non-authorization) message is invoked exactly `M` times, after
which the distinct `RetryException` is raised carrying the last underlying
cause; an operation whose first failure message contains an authorization
marker (`unauthorized`, `forbidden`, `bad credentials`, case-insensitively)
is invoked exactly once and its error is re-raised unchanged. -/
theorem async_retry_spec (M : ℕ) (op : ℕ → OpResult) (msgs : ℕ → String) (m : String) :
    ((∀ i, i < M → op i = .fail (msgs i) ∧ isAuthMsg (msgs i) = false) → 1 ≤ M →
      async_retry M op = ⟨M, .exhausted (some (msgs (M - 1)))⟩) ∧
      (op 0 = .fail m → isAuthMsg m = true → 1 ≤ M →
        async_retry M op = ⟨1, .raised m⟩) := by
  constructor
  · intro hop hM
    have := retryGo_all_fail op msgs M 0 none (fun i _ h2 => hop i (by omega))
    rw [async_retry, this, if_neg (by omega)]
    simp
  · intro hop hauth hM
    obtain ⟨r, rfl⟩ : ∃ r, M = r + 1 := ⟨M - 1, by omega⟩
    rw [async_retry, retryGo, hop]
    dsimp only
    rw [if_pos hauth]

/-- Witness for C3: an operation always failing with `"connection timeout"`
under `max_attempts = 3` is called 3 times and ends in the retries-exhausted
error carrying that message; an operation failing with `"401 Unauthorized"`
is called once and the error is re-raised. -/
theorem async_retry_spec_witness :
    async_retry 3 (fun _ => .fail "connection timeout") =
        ⟨3, .exhausted (some "connection timeout")⟩ ∧
      async_retry 3 (fun _ => .fail "401 Unauthorized") =
        ⟨1, .raised "401 Unauthorized"⟩ :=
  ⟨(async_retry_spec 3 (fun _ => .fail "connection timeout")
        (fun _ => "connection timeout") "").1
      (fun _ _ => ⟨rfl, by decide⟩) (by decide),
   (async_retry_spec 3 (fun _ => .fail "401 Unauthorized")
        (fun _ => "") "401 Unauthorized").2 rfl (by decide) (by decide)⟩

/-- **C8 counterexample.**  Two invocations of `from_github_response` on the
same raw item at clock instants 0 and 1 produce different `Repository`
values: `last_crawled_at` is stamped from the clock, so the conversion is
not deterministic in all fields. -/
theorem from_github_response_not_deterministic :
    from_github_response (fun _ => 0) 0
        ⟨some (.num 42), none, "octocat/hello-world", 5⟩ ≠
      from_github_response (fun _ => 0) 1
        ⟨some (.num 42), none, "octocat/hello-world", 5⟩ := by
  decide

/-- **C8 amended.**  The conversion is deterministic in every field except
`last_crawled_at`: for a fixed process hash function, the derived id, name,
star count and the (absent) created/updated stamps depend only on the raw
item, and two invocations at the same clock instant agree in all fields. -/
theorem from_github_response_deterministic (hashF : String → ℤ)
    (data : RawRepoData) (t₁ t₂ : ℤ) :
    ((from_github_response hashF t₁ data).map
        (fun r => (r.id, r.full_name, r.star_count, r.created_at, r.updated_at)) =
      (from_github_response hashF t₂ data).map
        (fun r => (r.id, r.full_name, r.star_count, r.created_at, r.updated_at))) ∧
      (t₁ = t₂ →
        from_github_response hashF t₁ data = from_github_response hashF t₂ data) := by
  refine ⟨?_, fun h => by rw [h]⟩
  unfold from_github_response
  cases deriveId hashF data <;> rfl

/-- Witness for C8's amended theorem at a concrete raw item and instants. -/
theorem from_github_response_deterministic_witness :
    from_github_response (fun _ => 7) 3 ⟨some (.num 42), none, "octocat/x", 5⟩ =
      from_github_response (fun _ => 7) 3 ⟨some (.num 42), none, "octocat/x", 5⟩ :=
  (from_github_response_deterministic (fun _ => 7)
    ⟨some (.num 42), none, "octocat/x", 5⟩ 3 3).2 rfl

/-- **C9 counterexample.**  Upserting the batch `[⟨1, "a", 5, lc := 10⟩]`
into an empty store at instant 0 and then again at instant 1 does not leave
the store identical to a single application: the second application rewrites
`updated_at` from 0 to 1, so the stored field values differ. -/
theorem upsert_repositories_twice_differs :
    upsert_repositories 0 []
        [{ id := 1, full_name := "a", star_count := 5, last_crawled_at := some 10 }] =
      .ok ([⟨1, "a", 5, 0, 0, 10⟩], 1) ∧
      upsert_repositories 1 [⟨1, "a", 5, 0, 0, 10⟩]
          [{ id := 1, full_name := "a", star_count := 5, last_crawled_at := some 10 }] =
        .ok ([⟨1, "a", 5, 0, 1, 10⟩], 1) ∧
      ([⟨1, "a", 5, 0, 1, 10⟩] : List DbRow) ≠ [⟨1, "a", 5, 0, 0, 10⟩] :=
  ⟨rfl, rfl, by decide⟩

theorem upsertRow_id (now : ℤ) (r : Repository) (row : DbRow) :
    (upsertRow now r row).id = row.id := by
  unfold upsertRow; split <;> rfl

theorem upsertRow_name (now : ℤ) (r : Repository) (row : DbRow) :
    (upsertRow now r row).full_name = row.full_name := by
  unfold upsertRow; split <;> rfl

theorem upsertRow_created (now : ℤ) (r : Repository) (row : DbRow) :
    (upsertRow now r row).created_at = row.created_at := by
  unfold upsertRow; split <;> rfl

theorem hasIdB_map (now : ℤ) (r : Repository) (s : List DbRow) (i : ℤ) :
    hasIdB (s.map (upsertRow now r)) i = hasIdB s i := by
  simp [hasIdB, List.any_map, Function.comp_def, upsertRow_id]

theorem lastWriter_cons_some {rest : List Repository} {i : ℤ} {r'' : Repository}
    (r : Repository) (hw : lastWriter rest i = some r'') :
    lastWriter (r :: rest) i = some r'' := by
  rw [lastWriter, hw]

theorem lastWriter_cons_none {rest : List Repository} {i : ℤ}
    (r : Repository) (hw : lastWriter rest i = none) :
    lastWriter (r :: rest) i = if r.id = i then some r else none := by
  rw [lastWriter, hw]

theorem upsertOne_ok {now : ℤ} {s : List DbRow} {r : Repository}
    {s' : List DbRow} {k : ℕ} (h : upsertOne now s r = .ok (s', k)) :
    (hasIdB s r.id = true ∧ s' = s.map (upsertRow now r) ∧ k = 1) ∨
      (hasIdB s r.id = false ∧ hasNameB s r.full_name = false ∧
        s' = s ++ [newRow now r] ∧ k = 1) := by
  unfold upsertOne at h
  by_cases h1 : hasIdB s r.id = true
  · rw [if_pos h1] at h
    simp only [Except.ok.injEq, Prod.mk.injEq] at h
    exact .inl ⟨h1, h.1.symm, h.2.symm⟩
  · rw [if_neg h1] at h
    by_cases h2 : hasNameB s r.full_name = true
    · rw [if_pos h2] at h
      cases h
    · rw [if_neg h2] at h
      simp only [Except.ok.injEq, Prod.mk.injEq] at h
      exact .inr ⟨by simpa using h1, by simpa using h2, h.1.symm, h.2.symm⟩

theorem upsertGo_cons_ok {now : ℤ} {s : List DbRow} {r : Repository}
    {s' : List DbRow} {k : ℕ} (acc : ℕ) (rest : List Repository)
    (hu : upsertOne now s r = .ok (s', k)) :
    upsertGo now s acc (r :: rest) = upsertGo now s' (acc + k) rest := by
  rw [upsertGo, hu]

theorem upsertGo_cons_ne_err {now : ℤ} {s : List DbRow} {r : Repository}
    {rest : List Repository} {acc : ℕ} {s₁ : List DbRow} {n : ℕ}
    (h : upsertGo now s acc (r :: rest) = .ok (s₁, n)) :
    ∃ s' k, upsertOne now s r = .ok (s', k) ∧
      upsertGo now s' (acc + k) rest = .ok (s₁, n) := by
  rw [upsertGo] at h
  cases hu : upsertOne now s r with
  | error e => rw [hu] at h; cases h
  | ok p => rw [hu] at h; exact ⟨p.1, p.2, rfl, h⟩

theorem upsertOne_hasId_mono {now : ℤ} {s : List DbRow} {r : Repository}
    {s' : List DbRow} {k : ℕ} (h : upsertOne now s r = .ok (s', k)) (i : ℤ)
    (hi : hasIdB s i = true) : hasIdB s' i = true := by
  rcases upsertOne_ok h with ⟨_, rfl, _⟩ | ⟨_, _, rfl, _⟩
  · rwa [hasIdB_map]
  · simp only [hasIdB, List.any_append, Bool.or_eq_true]
    exact .inl hi

theorem upsertOne_hasId_self {now : ℤ} {s : List DbRow} {r : Repository}
    {s' : List DbRow} {k : ℕ} (h : upsertOne now s r = .ok (s', k)) :
    hasIdB s' r.id = true := by
  rcases upsertOne_ok h with ⟨h1, rfl, _⟩ | ⟨_, _, rfl, _⟩
  · rwa [hasIdB_map]
  · simp [hasIdB, List.any_append, newRow]

theorem upsertGo_hasId_mono {now : ℤ} (b : List Repository) :
    ∀ (s : List DbRow) (acc : ℕ) (s₁ : List DbRow) (n : ℕ),
      upsertGo now s acc b = .ok (s₁, n) → ∀ i, hasIdB s i = true →
        hasIdB s₁ i = true := by
  induction b with
  | nil =>
    intro s acc s₁ n h i hi
    simp only [upsertGo, Except.ok.injEq, Prod.mk.injEq] at h
    rw [← h.1]; exact hi
  | cons r rest ih =>
    intro s acc s₁ n h i hi
    obtain ⟨s', k, hu, h'⟩ := upsertGo_cons_ne_err h
    exact ih s' (acc + k) s₁ n h' i (upsertOne_hasId_mono hu i hi)

theorem upsertGo_hasId_all {now : ℤ} (b : List Repository) :
    ∀ (s : List DbRow) (acc : ℕ) (s₁ : List DbRow) (n : ℕ),
      upsertGo now s acc b = .ok (s₁, n) → ∀ r ∈ b, hasIdB s₁ r.id = true := by
  induction b with
  | nil => intro s acc s₁ n _ r hr; cases hr
  | cons r0 rest ih =>
    intro s acc s₁ n h r hr
    obtain ⟨s', k, hu, h'⟩ := upsertGo_cons_ne_err h
    rcases List.mem_cons.mp hr with rfl | hmem
    · exact upsertGo_hasId_mono rest s' (acc + k) s₁ n h' r.id
        (upsertOne_hasId_self hu)
    · exact ih s' (acc + k) s₁ n h' r hmem

theorem upsertGo_all_update {now : ℤ} (b : List Repository) :
    ∀ (s : List DbRow) (acc : ℕ), (∀ r ∈ b, hasIdB s r.id = true) →
      upsertGo now s acc b =
        .ok (b.foldl (fun st r => st.map (upsertRow now r)) s, acc + b.length) := by
  induction b with
  | nil => intro s acc _; simp [upsertGo]
  | cons r rest ih =>
    intro s acc hall
    have hr : hasIdB s r.id = true := hall r (List.mem_cons_self r rest)
    have hu : upsertOne now s r = .ok (s.map (upsertRow now r), 1) := by
      unfold upsertOne; rw [if_pos hr]
    rw [upsertGo_cons_ok acc rest hu]
    rw [ih (s.map (upsertRow now r)) (acc + 1)
      (fun r' hr' => by rw [hasIdB_map]; exact hall r' (List.mem_cons_of_mem r hr'))]
    rw [List.foldl_cons, List.length_cons]
    congr 2
    omega

theorem foldl_map_applyAll (now : ℤ) (b : List Repository) :
    ∀ s : List DbRow,
      b.foldl (fun st r => st.map (upsertRow now r)) s = s.map (applyAll now b) := by
  induction b with
  | nil =>
    intro s
    show s = s.map id
    exact (List.map_id s).symm
  | cons r rest ih =>
    intro s
    rw [List.foldl_cons, ih (s.map (upsertRow now r)), List.map_map]
    rfl

theorem applyAll_of_none (now : ℤ) (b : List Repository) :
    ∀ row : DbRow, lastWriter b row.id = none → applyAll now b row = row := by
  induction b with
  | nil => intro row _; rfl
  | cons r rest ih =>
    intro row hlw
    cases hw : lastWriter rest row.id with
    | some r'' =>
      rw [lastWriter_cons_some r hw] at hlw
      cases hlw
    | none =>
      rw [lastWriter_cons_none r hw] at hlw
      by_cases hr : r.id = row.id
      · rw [if_pos hr] at hlw; cases hlw
      · have hstep : applyAll now (r :: rest) row =
            applyAll now rest (upsertRow now r row) := rfl
        have hrow : upsertRow now r row = row := by
          unfold upsertRow
          rw [if_neg (fun hx => hr hx.symm)]
        rw [hstep, hrow]
        exact ih row hw

theorem applyAll_of_some (now : ℤ) (b : List Repository) :
    ∀ (row : DbRow) (r' : Repository), lastWriter b row.id = some r' →
      applyAll now b row = ⟨row.id, row.full_name, r'.star_count, row.created_at,
        now, r'.last_crawled_at.getD now⟩ := by
  induction b with
  | nil => intro row r' hlw; cases hlw
  | cons r rest ih =>
    intro row r' hlw
    have hstep : applyAll now (r :: rest) row =
        applyAll now rest (upsertRow now r row) := rfl
    have hid : (upsertRow now r row).id = row.id := upsertRow_id now r row
    cases hw : lastWriter rest row.id with
    | some r'' =>
      rw [lastWriter_cons_some r hw] at hlw
      injection hlw with h'
      subst h'
      have hw' : lastWriter rest (upsertRow now r row).id = some r'' := by
        rw [hid, hw]
      rw [hstep, ih (upsertRow now r row) r'' hw', hid,
        upsertRow_name, upsertRow_created]
    | none =>
      rw [lastWriter_cons_none r hw] at hlw
      by_cases hr : r.id = row.id
      · rw [if_pos hr] at hlw
        injection hlw with h'
        subst h'
        have hw' : lastWriter rest (upsertRow now r row).id = none := by
          rw [hid, hw]
        rw [hstep, applyAll_of_none now rest (upsertRow now r row) hw']
        unfold upsertRow
        rw [if_pos hr.symm]
      · rw [if_neg hr] at hlw
        cases hlw

theorem lastWriter_mem (b : List Repository) (i : ℤ) :
    ∀ r', lastWriter b i = some r' → r' ∈ b := by
  induction b with
  | nil => intro r' h; cases h
  | cons r rest ih =>
    intro r' h
    cases hw : lastWriter rest i with
    | some r'' =>
      rw [lastWriter_cons_some r hw] at h
      injection h with h'
      subst h'
      exact List.mem_cons_of_mem r (ih r'' hw)
    | none =>
      rw [lastWriter_cons_none r hw] at h
      by_cases hr : r.id = i
      · rw [if_pos hr] at h
        injection h with h'
        subst h'
        exact List.mem_cons_self r rest
      · rw [if_neg hr] at h
        cases h

theorem upsertOne_values {now : ℤ} {s : List DbRow} {r : Repository}
    {s' : List DbRow} {k : ℕ} (h : upsertOne now s r = .ok (s', k)) :
    ∀ row ∈ s', row.id = r.id →
      row.star_count = r.star_count ∧
        row.last_crawled_at = r.last_crawled_at.getD now ∧
        row.updated_at = now := by
  intro row hrow hid
  rcases upsertOne_ok h with ⟨_, rfl, _⟩ | ⟨h1, _, rfl, _⟩
  · obtain ⟨row₀, hmem, rfl⟩ := List.mem_map.mp hrow
    rw [upsertRow_id] at hid
    unfold upsertRow
    rw [if_pos hid]
    exact ⟨rfl, rfl, rfl⟩
  · rcases List.mem_append.mp hrow with hs | hnew
    · exfalso
      have : hasIdB s r.id = true := by
        simp only [hasIdB, List.any_eq_true]
        exact ⟨row, hs, by simp [hid]⟩
      rw [this] at h1
      cases h1
    · rw [List.mem_singleton.mp hnew]
      exact ⟨rfl, rfl, rfl⟩

theorem upsertGo_untouched {now : ℤ} (b : List Repository) :
    ∀ (s : List DbRow) (acc : ℕ) (s₁ : List DbRow) (n : ℕ) (i : ℤ),
      upsertGo now s acc b = .ok (s₁, n) → lastWriter b i = none →
        ∀ row ∈ s₁, row.id = i → row ∈ s := by
  induction b with
  | nil =>
    intro s acc s₁ n i h _ row hrow _
    simp only [upsertGo, Except.ok.injEq, Prod.mk.injEq] at h
    rw [← h.1] at hrow
    exact hrow
  | cons r rest ih =>
    intro s acc s₁ n i h hlw row hrow hid
    have hwrest : lastWriter rest i = none := by
      cases hw : lastWriter rest i with
      | some r'' => rw [lastWriter_cons_some r hw] at hlw; cases hlw
      | none => rfl
    rw [lastWriter_cons_none r hwrest] at hlw
    have hri : ¬ r.id = i := by
      intro hx
      rw [if_pos hx] at hlw
      cases hlw
    obtain ⟨s', k, hu, h'⟩ := upsertGo_cons_ne_err h
    have hrow' : row ∈ s' := ih s' (acc + k) s₁ n i h' hwrest row hrow hid
    rcases upsertOne_ok hu with ⟨_, hs', _⟩ | ⟨_, _, hs', _⟩
    · rw [hs'] at hrow'
      obtain ⟨row₀, hmem, heq⟩ := List.mem_map.mp hrow'
      have hid₀ : row₀.id = i := by
        rw [← heq, upsertRow_id] at hid
        exact hid
      have : upsertRow now r row₀ = row₀ := by
        unfold upsertRow
        rw [if_neg (fun hx : row₀.id = r.id => hri (hx.symm.trans hid₀))]
      rw [← heq, this]
      exact hmem
    · rw [hs'] at hrow'
      rcases List.mem_append.mp hrow' with hs | hnew
      · exact hs
      · exfalso
        rw [List.mem_singleton.mp hnew] at hid
        exact hri hid

theorem upsertGo_settled {now : ℤ} (b : List Repository) :
    ∀ (s : List DbRow) (acc : ℕ) (s₁ : List DbRow) (n : ℕ),
      upsertGo now s acc b = .ok (s₁, n) → Settled now b s₁ := by
  induction b with
  | nil => intro s acc s₁ n _ row _ r' hlw; cases hlw
  | cons r rest ih =>
    intro s acc s₁ n h row hrow r' hlw
    obtain ⟨s', k, hu, h'⟩ := upsertGo_cons_ne_err h
    cases hw : lastWriter rest row.id with
    | some r'' =>
      rw [lastWriter_cons_some r hw] at hlw
      injection hlw with heq
      subst heq
      exact ih s' (acc + k) s₁ n h' row hrow r'' hw
    | none =>
      rw [lastWriter_cons_none r hw] at hlw
      by_cases hr : r.id = row.id
      · rw [if_pos hr] at hlw
        injection hlw with heq
        subst heq
        have hrow' : row ∈ s' :=
          upsertGo_untouched rest s' (acc + k) s₁ n row.id h' hw row hrow rfl
        exact upsertOne_values hu row hrow' hr.symm
      · rw [if_neg hr] at hlw
        cases hlw

/-- **C9 amended.**  Re-applying an identical batch to the store is
idempotent in everything except the write-time audit stamps: the second
application succeeds, preserves `count()` and the stored `id`, `full_name`,
`star_count` and `created_at` of every row; it also preserves
`last_crawled_at` whenever the batch records carry explicit last-crawled
stamps (the crawler always sets them); and when the second call observes
the same `CURRENT_TIMESTAMP` as the first the final store is literally
identical.  The `rows_affected` values of the two calls may differ. -/
theorem upsert_repositories_idempotent (t₁ t₂ : ℤ) (s : List DbRow)
    (b : List Repository) (s₁ : List DbRow) (n₁ : ℕ)
    (h : upsert_repositories t₁ s b = .ok (s₁, n₁)) :
    ∃ s₂ n₂, upsert_repositories t₂ s₁ b = .ok (s₂, n₂) ∧
      s₂.length = s₁.length ∧
      s₂.map (fun row => (row.id, row.full_name, row.star_count, row.created_at)) =
        s₁.map (fun row => (row.id, row.full_name, row.star_count, row.created_at)) ∧
      ((∀ r ∈ b, r.last_crawled_at.isSome) →
        s₂.map (fun row => row.last_crawled_at) =
          s₁.map (fun row => row.last_crawled_at)) ∧
      (t₂ = t₁ → s₂ = s₁) := by
  have hall : ∀ r ∈ b, hasIdB s₁ r.id = true :=
    upsertGo_hasId_all b s 0 s₁ n₁ h
  have hsett : Settled t₁ b s₁ := upsertGo_settled b s 0 s₁ n₁ h
  have h2 : upsert_repositories t₂ s₁ b = .ok (s₁.map (applyAll t₂ b), 0 + b.length) := by
    unfold upsert_repositories
    rw [upsertGo_all_update b s₁ 0 hall, foldl_map_applyAll]
  refine ⟨s₁.map (applyAll t₂ b), 0 + b.length, h2, List.length_map _ _, ?_, ?_, ?_⟩
  · rw [List.map_map]
    refine List.map_congr_left fun row hrow => ?_
    show (fun row => (row.id, row.full_name, row.star_count, row.created_at))
      (applyAll t₂ b row) = _
    cases hw : lastWriter b row.id with
    | none => rw [applyAll_of_none t₂ b row hw]
    | some r' =>
      rw [applyAll_of_some t₂ b row r' hw]
      obtain ⟨hstar, _, _⟩ := hsett row hrow r' hw
      simp [hstar]
  · intro hsome
    rw [List.map_map]
    refine List.map_congr_left fun row hrow => ?_
    show (applyAll t₂ b row).last_crawled_at = row.last_crawled_at
    cases hw : lastWriter b row.id with
    | none => rw [applyAll_of_none t₂ b row hw]
    | some r' =>
      rw [applyAll_of_some t₂ b row r' hw]
      obtain ⟨_, hlc, _⟩ := hsett row hrow r' hw
      obtain ⟨v, hv⟩ :=
        Option.isSome_iff_exists.mp (hsome r' (lastWriter_mem b row.id r' hw))
      show r'.last_crawled_at.getD t₂ = row.last_crawled_at
      rw [hlc, hv]
      rfl
  · rintro rfl
    have : s₁.map (applyAll t₂ b) = s₁.map id := by
      refine List.map_congr_left fun row hrow => ?_
      show applyAll t₂ b row = row
      cases hw : lastWriter b row.id with
      | none => exact applyAll_of_none t₂ b row hw
      | some r' =>
        rw [applyAll_of_some t₂ b row r' hw]
        obtain ⟨hstar, hlc, hupd⟩ := hsett row hrow r' hw
        cases row with
        | mk i fn sc ca ua lc =>
          simp only at hstar hlc hupd
          show (⟨i, fn, r'.star_count, ca, t₂, r'.last_crawled_at.getD t₂⟩ : DbRow) = _
          rw [← hstar, ← hlc, ← hupd]
    rw [this, List.map_id]

/-- Witness for C9's amended theorem: inserting one record at instant 0 and
re-applying the identical batch at instant 0 leaves the one-row store
literally identical. -/
theorem upsert_repositories_idempotent_witness :
    ∃ s₂ n₂, upsert_repositories 0 [⟨1, "a", 5, 0, 0, 10⟩]
        [{ id := 1, full_name := "a", star_count := 5, last_crawled_at := some 10 }] =
        .ok (s₂, n₂) ∧ s₂ = [⟨1, "a", 5, 0, 0, 10⟩] := by
  obtain ⟨s₂, n₂, hok, _, _, _, heq⟩ :=
    upsert_repositories_idempotent 0 0 []
      [{ id := 1, full_name := "a", star_count := 5, last_crawled_at := some 10 }]
      [⟨1, "a", 5, 0, 0, 10⟩] 1 rfl
  exact ⟨s₂, n₂, hok, heq rfl⟩

theorem searchGo_falsy_eq (exec : ℕ → ℕ → ExecResult) :
    ∀ (fuel callIdx : ℕ) (st : SearchState),
      searchGo exec (some 0) fuel callIdx st = searchGo exec none fuel callIdx st := by
  intro fuel
  induction fuel with
  | zero => intro c st; rfl
  | succ n ih =>
    intro c st
    rw [searchGo, searchGo]
    simp only [maxTruthy, bne_self_eq_false, Bool.false_and, Bool.false_eq_true,
      if_false]
    cases hx : exec c st.batch_size with
    | err e => rfl
    | ok nodes hnp ec =>
      by_cases he : nodes.isEmpty = true
      · simp only [he, if_true]
      · simp only [he, Bool.false_eq_true, if_false]
        cases hnp with
        | false => rfl
        | true => simp only [ih]

theorem searchGo_falsy_no_cap (exec : ℕ → ℕ → ExecResult) :
    ∀ (fuel callIdx : ℕ) (st : SearchState),
      (searchGo exec none fuel callIdx st).reason ≠ .capReached := by
  intro fuel
  induction fuel with
  | zero => intro c st h; cases h
  | succ n ih =>
    intro c st
    rw [searchGo]
    simp only [maxTruthy, Bool.false_and, Bool.false_eq_true, if_false]
    cases hx : exec c st.batch_size with
    | err e => intro h; cases h
    | ok nodes hnp ec =>
      by_cases he : nodes.isEmpty = true
      · simp only [he, if_true]
        intro h; cases h
      · simp only [he, Bool.false_eq_true, if_false]
        cases hnp with
        | false => intro h; cases h
        | true => apply ih

/-- **C10.** A `max_repos` of `None` or `0` imposes no cap at all: the
generator's run is identical under the two arguments (Python truthiness
treats `0` as unlimited, not as a zero-item cap), and the loop never stops
for the cap-reached reason — it runs until the executor reports an empty
node list or no further page, an error is caught, or fuel runs out. -/
theorem search_repositories_falsy_unlimited (exec : ℕ → ℕ → ExecResult)
    (batch_size fuel : ℕ) :
    search_repositories exec (some 0) batch_size fuel =
        search_repositories exec none batch_size fuel ∧
      (search_repositories exec (some 0) batch_size fuel).reason ≠ .capReached ∧
      (search_repositories exec none batch_size fuel).reason ≠ .capReached := by
  refine ⟨searchGo_falsy_eq exec fuel 0 _, ?_, ?_⟩
  · rw [search_repositories, searchGo_falsy_eq exec fuel 0]
    exact searchGo_falsy_no_cap exec fuel 0 _
  · exact searchGo_falsy_no_cap exec fuel 0 _

/-- **C2 counterexample.**  With an executor that raises on every call (a
retries-exhausted failure surfacing through the fetcher) and a healthy
sink, the run does not abort: the fetcher's `except … break` swallows the
error (stop reason `errorCaught`), the orchestrator finishes the shard
list, and the run is reported with `success = true` and no error — not the
`success = false` with partial statistics the claim requires. -/
theorem crawl_shard_failure_reports_success :
    crawl_repositories envExecFails [StarQuery.gt 0] 50 100 5 =
      .ok ⟨true, none, 0, 0, some 0, some 0, [], [(0, 50)], [.errorCaught]⟩ := by
  rfl

theorem writeBatches_total_ok {u : ℕ → Except String ℕ}
    (hup : ∀ i, ∃ k, u i = .ok k) :
    ∀ (batches : List (List Repository)) (st : OrchState),
      ∃ st', writeBatches u batches st = .ok st' := by
  intro batches
  induction batches with
  | nil => intro st; exact ⟨st, rfl⟩
  | cons batch rest ih =>
    intro st
    obtain ⟨k, hk⟩ := hup st.writeIdx
    rw [writeBatches, hk]
    exact ih _

theorem shardLoop_total_ok {env : CrawlEnv}
    (hup : ∀ i, ∃ k, env.upsertResults i = .ok k)
    (max_repos batch_size fuel : ℕ) :
    ∀ (queries : List StarQuery) (shardIdx : ℕ) (st : OrchState),
      ∃ st', shardLoop env max_repos batch_size fuel queries shardIdx st = .ok st' := by
  intro queries
  induction queries with
  | nil => intro shardIdx st; exact ⟨st, rfl⟩
  | cons q rest ih =>
    intro shardIdx st
    rw [shardLoop]
    by_cases hc : max_repos ≤ st.total_saved
    · rw [if_pos hc]; exact ⟨st, rfl⟩
    · rw [if_neg hc]
      dsimp only
      obtain ⟨st1, h1⟩ := writeBatches_total_ok hup _ _
      rw [h1]
      exact ih (shardIdx + 1) st1

/-- **C2 amended.**  A failure raised by the executor while iterating one
shard is caught inside the fetcher (`except … break`) and aborts only that
shard's pagination; the run itself continues and — whenever the persistence
writes and the count reads succeed — completes with `success = true` and no
error, regardless of executor failures.  Only an exception raised in the
orchestrator's own loop (a persistence write or the final count read)
produces a `success = false` result with the partial statistics. -/
theorem crawl_executor_failure_swallowed (env : CrawlEnv)
    (queries : List StarQuery) (max_repos batch_size fuel : ℕ)
    (hup : ∀ i, ∃ k, env.upsertResults i = .ok k)
    (hc0 : ∃ c, env.count0 = .ok c) (hcf : ∃ c, env.countFinal = .ok c) :
    ∃ res, crawl_repositories env queries max_repos batch_size fuel = .ok res ∧
      res.success = true ∧ res.error = none := by
  obtain ⟨c0, h0⟩ := hc0
  obtain ⟨cf, hf⟩ := hcf
  obtain ⟨st', hst⟩ := shardLoop_total_ok hup max_repos batch_size fuel queries 0
    ⟨0, 0, 0, [], [], []⟩
  rw [crawl_repositories, h0, hst, hf]
  exact ⟨_, rfl, rfl, rfl⟩

/-- Witness for C2's amended theorem: the always-failing executor with a
healthy sink yields a completed run with `success = true`. -/
theorem crawl_executor_failure_swallowed_witness :
    ∃ res, crawl_repositories envExecFails [StarQuery.gt 0] 10 100 3 = .ok res ∧
      res.success = true ∧ res.error = none :=
  crawl_executor_failure_swallowed envExecFails [StarQuery.gt 0] 10 100 3
    (fun _ => ⟨1, rfl⟩) ⟨0, rfl⟩ ⟨0, rfl⟩

/-- **C6 counterexample.**  The initial `get_repository_count()` runs
before the `try` block of `crawl_repositories`, so when that collaborator
call raises, the exception escapes the top-level run instead of being
resolved into a result dictionary. -/
theorem crawl_initial_count_failure_escapes :
    crawl_repositories envCount0Fails [StarQuery.gt 0] 10 100 5 =
      .error "database connection failed" := by
  rfl

theorem writeBatches_counters_ok {u : ℕ → Except String ℕ} :
    ∀ (batches : List (List Repository)) (st st' : OrchState),
      writeBatches u batches st = .ok st' → CountersOk st → CountersOk st' := by
  intro batches
  induction batches with
  | nil =>
    intro st st' h hin
    simp only [writeBatches, Except.ok.injEq] at h
    rwa [← h]
  | cons batch rest ih =>
    intro st st' h hin
    rw [writeBatches] at h
    cases hk : u st.writeIdx with
    | error e => rw [hk] at h; cases h
    | ok k =>
      rw [hk] at h
      refine ih _ st' h ⟨?_, ?_⟩
      · show st.total_batches + 1 = (st.writes ++ [st.total_saved + batch.length]).length
        rw [List.length_append, hin.1]
        rfl
      · show st.total_saved + batch.length =
          (st.writes ++ [st.total_saved + batch.length]).getLastD 0
        rw [List.getLastD_concat]

theorem writeBatches_counters_err {u : ℕ → Except String ℕ} :
    ∀ (batches : List (List Repository)) (st : OrchState) (e : String)
      (st' : OrchState),
      writeBatches u batches st = .error (e, st') → CountersOk st → CountersOk st' := by
  intro batches
  induction batches with
  | nil => intro st e st' h _; cases h
  | cons batch rest ih =>
    intro st e st' h hin
    rw [writeBatches] at h
    cases hk : u st.writeIdx with
    | error e0 =>
      rw [hk] at h
      injection h with h'
      injection h' with h1 h2
      rw [← h2]
      exact hin
    | ok k =>
      rw [hk] at h
      refine ih _ e st' h ⟨?_, ?_⟩
      · show st.total_batches + 1 = (st.writes ++ [st.total_saved + batch.length]).length
        rw [List.length_append, hin.1]
        rfl
      · show st.total_saved + batch.length =
          (st.writes ++ [st.total_saved + batch.length]).getLastD 0
        rw [List.getLastD_concat]

theorem shardLoop_counters {env : CrawlEnv} (max_repos batch_size fuel : ℕ) :
    ∀ (queries : List StarQuery) (shardIdx : ℕ) (st : OrchState),
      CountersOk st →
      (∀ st', shardLoop env max_repos batch_size fuel queries shardIdx st = .ok st' →
        CountersOk st') ∧
      (∀ e st', shardLoop env max_repos batch_size fuel queries shardIdx st =
        .error (e, st') → CountersOk st') := by
  intro queries
  induction queries with
  | nil =>
    intro shardIdx st hin
    constructor
    · intro st' h
      simp only [shardLoop, Except.ok.injEq] at h
      rwa [← h]
    · intro e st' h
      cases h
  | cons q rest ih =>
    intro shardIdx st hin
    constructor
    · intro st' h
      rw [shardLoop] at h
      by_cases hc : max_repos ≤ st.total_saved
      · rw [if_pos hc] at h
        simp only [Except.ok.injEq] at h
        rwa [← h]
      · rw [if_neg hc] at h
        dsimp only at h
        cases hw : writeBatches env.upsertResults
            (search_repositories (env.exec shardIdx) (some (min 1000 (max_repos - st.total_saved))) batch_size fuel).batches
            { st with shardCaps := st.shardCaps ++ [(st.total_saved, min 1000 (max_repos - st.total_saved))],
                      reasons := st.reasons ++ [(search_repositories (env.exec shardIdx) (some (min 1000 (max_repos - st.total_saved))) batch_size fuel).reason] } with
        | error p => rw [hw] at h; cases h
        | ok st1 =>
          rw [hw] at h
          have h1 : CountersOk st1 :=
            writeBatches_counters_ok _ _ st1 hw ⟨hin.1, hin.2⟩
          exact (ih (shardIdx + 1) st1 h1).1 st' h
    · intro e st' h
      rw [shardLoop] at h
      by_cases hc : max_repos ≤ st.total_saved
      · rw [if_pos hc] at h
        cases h
      · rw [if_neg hc] at h
        dsimp only at h
        cases hw : writeBatches env.upsertResults
            (search_repositories (env.exec shardIdx) (some (min 1000 (max_repos - st.total_saved))) batch_size fuel).batches
            { st with shardCaps := st.shardCaps ++ [(st.total_saved, min 1000 (max_repos - st.total_saved))],
                      reasons := st.reasons ++ [(search_repositories (env.exec shardIdx) (some (min 1000 (max_repos - st.total_saved))) batch_size fuel).reason] } with
        | error p =>
          rw [hw] at h
          injection h with h'
          subst h'
          exact writeBatches_counters_err _ _ _ _ hw ⟨hin.1, hin.2⟩
        | ok st1 =>
          rw [hw] at h
          have h1 : CountersOk st1 :=
            writeBatches_counters_ok _ _ st1 hw ⟨hin.1, hin.2⟩
          exact (ih (shardIdx + 1) st1 h1).2 e st' h

/-- **C6 amended.**  Once the initial store-count read (performed before
the guarded region) has succeeded, no exception escapes
`crawl_repositories`: every collaborator failure mode resolves into a
returned statistics dictionary whose counters reflect exactly the batches
persisted before the failure (`total_batches` is the number of successful
writes and `total_crawled` the cumulative count after the last one), with
the error description present whenever `success = false`.  A failure of
the initial count read itself, however, escapes the call. -/
theorem crawl_no_escape_after_initial_count (env : CrawlEnv)
    (queries : List StarQuery) (max_repos batch_size fuel : ℕ) (c0 : ℕ)
    (h0 : env.count0 = .ok c0) :
    ∃ res, crawl_repositories env queries max_repos batch_size fuel = .ok res ∧
      res.total_batches = res.writes.length ∧
      res.total_crawled = res.writes.getLastD 0 ∧
      (res.success = false → res.error.isSome = true) ∧
      (res.success = true → res.error = none) := by
  rw [crawl_repositories, h0]
  have hcnt := @shardLoop_counters env max_repos batch_size fuel queries 0
    ⟨0, 0, 0, [], [], []⟩ ⟨rfl, rfl⟩
  cases hsl : shardLoop env max_repos batch_size fuel queries 0 ⟨0, 0, 0, [], [], []⟩ with
  | error p =>
    obtain ⟨e, st'⟩ := p
    have hc := hcnt.2 e st' hsl
    exact ⟨_, rfl, hc.1, hc.2, fun _ => rfl, fun h => Bool.noConfusion h⟩
  | ok st =>
    have hc := hcnt.1 st hsl
    cases hf : env.countFinal with
    | error e => exact ⟨_, rfl, hc.1, hc.2, fun _ => rfl, fun h => Bool.noConfusion h⟩
    | ok cf => exact ⟨_, rfl, hc.1, hc.2, fun h => Bool.noConfusion h, fun _ => rfl⟩

/-- Witness for C6's amended theorem: the executor-failing environment has
a succeeding initial count read, so the run resolves into a dictionary. -/
theorem crawl_no_escape_after_initial_count_witness :
    ∃ res, crawl_repositories envExecFails [StarQuery.gt 0] 7 100 2 = .ok res ∧
      res.total_batches = res.writes.length ∧
      res.total_crawled = res.writes.getLastD 0 ∧
      (res.success = false → res.error.isSome = true) ∧
      (res.success = true → res.error = none) :=
  crawl_no_escape_after_initial_count envExecFails [StarQuery.gt 0] 7 100 2 0 rfl

theorem sumLens_append (a b : List (List Repository)) :
    sumLens (a ++ b) = sumLens a + sumLens b := by
  simp [sumLens]

theorem maxTruthy_some_pos {cap : ℕ} (hcap : 0 < cap) :
    maxTruthy (some cap) = true := by
  simp only [maxTruthy, bne_iff_ne, ne_eq]
  omega

theorem searchGo_cap {exec : ℕ → ℕ → ExecResult} (hhon : HonorsFirst exec)
    {cap : ℕ} (hcap : 0 < cap) :
    ∀ (fuel callIdx : ℕ) (st : SearchState), st.total_fetched ≤ cap →
      (searchGo exec (some cap) fuel callIdx st).total_fetched ≤ cap := by
  intro fuel
  induction fuel with
  | zero => intro c st hst; exact hst
  | succ n ih =>
    intro c st hst
    rw [searchGo]
    simp only [maxTruthy_some_pos hcap, Bool.true_and, Option.getD_some, if_true]
    by_cases hc : cap ≤ st.total_fetched
    · rw [if_pos (decide_eq_true hc)]
      exact hst
    · rw [if_neg (by simpa using hc)]
      cases hx : exec c (min st.batch_size (cap - st.total_fetched)) with
      | err e => exact hst
      | ok nodes hnp ec =>
        by_cases he : nodes.isEmpty = true
        · simp only [he, if_true]
          exact hst
        · simp only [he, Bool.false_eq_true, if_false]
          have hlen : nodes.reduceOption.length ≤ min st.batch_size (cap - st.total_fetched) :=
            le_trans (List.reduceOption_length_le nodes) (hhon c _ nodes hnp ec hx)
          have htot : st.total_fetched + nodes.reduceOption.length ≤ cap := by
            omega
          cases hnp with
          | false => exact htot
          | true => exact ih (c + 1) ⟨ec, _, _⟩ htot

theorem searchGo_total_eq {exec : ℕ → ℕ → ExecResult} {m : Option ℕ} :
    ∀ (fuel callIdx : ℕ) (st : SearchState),
      (searchGo exec m fuel callIdx st).total_fetched =
        st.total_fetched + sumLens (searchGo exec m fuel callIdx st).batches := by
  intro fuel
  induction fuel with
  | zero => intro c st; simp [searchGo, sumLens]
  | succ n ih =>
    intro c st
    rw [searchGo]
    by_cases hcap : (maxTruthy m && decide (m.getD 0 ≤ st.total_fetched)) = true
    · rw [if_pos hcap]
      simp [sumLens]
    · rw [if_neg hcap]
      dsimp only
      cases hx : exec c (if maxTruthy m = true
          then min st.batch_size (m.getD 0 - st.total_fetched) else st.batch_size) with
      | err e => simp [sumLens]
      | ok nodes hnp ec =>
        by_cases he : nodes.isEmpty = true
        · simp only [he, if_true]
          simp [sumLens]
        · simp only [he, Bool.false_eq_true, if_false]
          have hy : sumLens (if nodes.reduceOption.isEmpty = true then []
              else [nodes.reduceOption]) = nodes.reduceOption.length := by
            by_cases hre : nodes.reduceOption.isEmpty = true
            · rw [if_pos hre, List.isEmpty_iff.mp hre]
              rfl
            · rw [if_neg hre]
              simp [sumLens]
          cases hnp with
          | false =>
            rw [if_neg (by simp : ¬ ((false : Bool) = true))]
            dsimp only
            rw [hy]
          | true =>
            rw [if_pos (rfl : (true : Bool) = true)]
            dsimp only
            rw [ih, sumLens_append, hy]
            dsimp only
            omega

theorem searchGo_requests {exec : ℕ → ℕ → ExecResult} {cap bs0 : ℕ}
    (hcap : 0 < cap) :
    ∀ (fuel callIdx : ℕ) (st : SearchState), st.batch_size ≤ bs0 →
      min bs0 (cap - st.total_fetched) ≤ st.batch_size →
      ∀ p ∈ (searchGo exec (some cap) fuel callIdx st).requests,
        p.2 = min bs0 (cap - p.1) := by
  intro fuel
  induction fuel with
  | zero => intro c st _ _ p hp; cases hp
  | succ n ih =>
    intro c st hbs1 hbs2 p hp
    rw [searchGo] at hp
    simp only [maxTruthy_some_pos hcap, Bool.true_and, Option.getD_some, if_true] at hp
    by_cases hc : cap ≤ st.total_fetched
    · rw [if_pos (decide_eq_true hc)] at hp
      cases hp
    · rw [if_neg (by simpa using hc)] at hp
      have hbs : min st.batch_size (cap - st.total_fetched) =
          min bs0 (cap - st.total_fetched) := by
        omega
      cases hx : exec c (min st.batch_size (cap - st.total_fetched)) with
      | err e =>
        rw [hx] at hp
        rcases List.mem_singleton.mp hp with rfl
        exact hbs
      | ok nodes hnp ec =>
        rw [hx] at hp
        by_cases he : nodes.isEmpty = true
        · simp only [he, if_true] at hp
          rcases List.mem_singleton.mp hp with rfl
          exact hbs
        · simp only [he, Bool.false_eq_true, if_false] at hp
          cases hnp with
          | false =>
            simp only [if_neg (by simp : ¬ (false = true))] at hp
            rcases List.mem_singleton.mp hp with rfl
            exact hbs
          | true =>
            simp only [if_pos rfl] at hp
            rcases List.mem_cons.mp hp with rfl | htail
            · exact hbs
            · refine ih (c + 1) ⟨ec, st.total_fetched + nodes.reduceOption.length,
                min st.batch_size (cap - st.total_fetched)⟩ (by dsimp only; omega)
                (by dsimp only; omega) p htail

theorem sumLens_cons (b : List Repository) (r : List (List Repository)) :
    sumLens (b :: r) = b.length + sumLens r := by
  simp [sumLens]

theorem writeBatches_bound {u : ℕ → Except String ℕ} (K : ℕ) :
    ∀ (batches : List (List Repository)) (st : OrchState),
      st.total_saved + sumLens batches ≤ K → (∀ w ∈ st.writes, w ≤ K) →
      (∀ st', writeBatches u batches st = .ok st' →
        st'.total_saved = st.total_saved + sumLens batches ∧
          (∀ w ∈ st'.writes, w ≤ K) ∧ st'.shardCaps = st.shardCaps) ∧
      (∀ e st', writeBatches u batches st = .error (e, st') →
        st'.total_saved ≤ st.total_saved + sumLens batches ∧
          (∀ w ∈ st'.writes, w ≤ K) ∧ st'.shardCaps = st.shardCaps) := by
  intro batches
  induction batches with
  | nil =>
    intro st hsum hw
    constructor
    · intro st' h
      simp only [writeBatches, Except.ok.injEq] at h
      rw [← h]
      exact ⟨by simp [sumLens], hw, rfl⟩
    · intro e st' h
      cases h
  | cons batch rest ih =>
    intro st hsum hw
    rw [sumLens_cons] at hsum
    constructor
    · intro st' h
      rw [writeBatches] at h
      cases hk : u st.writeIdx with
      | error e0 => rw [hk] at h; cases h
      | ok k =>
        rw [hk] at h
        have hx := ih ⟨st.total_saved + batch.length, st.total_batches + 1,
            st.writeIdx + 1, st.writes ++ [st.total_saved + batch.length],
            st.shardCaps, st.reasons⟩
          (by dsimp only; omega)
          (by
            intro w hw2
            rcases List.mem_append.mp hw2 with h1 | h2
            · exact hw w h1
            · rw [List.mem_singleton.mp h2]; omega)
        obtain ⟨h1, h2, h3⟩ := hx.1 st' h
        refine ⟨?_, h2, h3⟩
        rw [h1]
        dsimp only
        rw [sumLens_cons]
        omega
    · intro e st' h
      rw [writeBatches] at h
      cases hk : u st.writeIdx with
      | error e0 =>
        rw [hk] at h
        injection h with h'
        injection h' with h1 h2
        rw [← h2]
        exact ⟨by omega, hw, rfl⟩
      | ok k =>
        rw [hk] at h
        have hx := ih ⟨st.total_saved + batch.length, st.total_batches + 1,
            st.writeIdx + 1, st.writes ++ [st.total_saved + batch.length],
            st.shardCaps, st.reasons⟩
          (by dsimp only; omega)
          (by
            intro w hw2
            rcases List.mem_append.mp hw2 with h1 | h2
            · exact hw w h1
            · rw [List.mem_singleton.mp h2]; omega)
        obtain ⟨h1, h2, h3⟩ := hx.2 e st' h
        refine ⟨?_, h2, h3⟩
        dsimp only at h1
        rw [sumLens_cons]
        omega

theorem shardLoop_bound {env : CrawlEnv} (hhon : ∀ i, HonorsFirst (env.exec i))
    (N batch_size fuel : ℕ) :
    ∀ (queries : List StarQuery) (shardIdx : ℕ) (st : OrchState),
      st.total_saved ≤ N → (∀ w ∈ st.writes, w ≤ N) →
      (∀ p ∈ st.shardCaps, p.2 = min 1000 (N - p.1)) →
      (∀ st', shardLoop env N batch_size fuel queries shardIdx st = .ok st' →
        st'.total_saved ≤ N ∧ (∀ w ∈ st'.writes, w ≤ N) ∧
          (∀ p ∈ st'.shardCaps, p.2 = min 1000 (N - p.1))) ∧
      (∀ e st', shardLoop env N batch_size fuel queries shardIdx st = .error (e, st') →
        st'.total_saved ≤ N ∧ (∀ w ∈ st'.writes, w ≤ N) ∧
          (∀ p ∈ st'.shardCaps, p.2 = min 1000 (N - p.1))) := by
  intro queries
  induction queries with
  | nil =>
    intro shardIdx st h1 h2 h3
    constructor
    · intro st' h
      simp only [shardLoop, Except.ok.injEq] at h
      rw [← h]
      exact ⟨h1, h2, h3⟩
    · intro e st' h
      cases h
  | cons q rest ih =>
    intro shardIdx st h1 h2 h3
    have hcap : 0 < min 1000 (N - st.total_saved) ∨ N ≤ st.total_saved := by omega
    by_cases hc : N ≤ st.total_saved
    all_goals constructor
    · intro st' h
      rw [shardLoop, if_pos hc] at h
      simp only [Except.ok.injEq] at h
      rw [← h]
      exact ⟨h1, h2, h3⟩
    · intro e st' h
      rw [shardLoop, if_pos hc] at h
      cases h
    all_goals
      have hcap' : 0 < min 1000 (N - st.total_saved) := by omega
      have htot : (search_repositories (env.exec shardIdx)
          (some (min 1000 (N - st.total_saved))) batch_size fuel).total_fetched ≤
            min 1000 (N - st.total_saved) :=
        searchGo_cap (hhon shardIdx) hcap' fuel 0 ⟨none, 0, batch_size⟩ (Nat.zero_le _)
      have hsum : sumLens (search_repositories (env.exec shardIdx)
          (some (min 1000 (N - st.total_saved))) batch_size fuel).batches ≤
            min 1000 (N - st.total_saved) := by
        have hteq := @searchGo_total_eq (env.exec shardIdx)
          (some (min 1000 (N - st.total_saved))) fuel 0 ⟨none, 0, batch_size⟩
        dsimp only at hteq
        rw [search_repositories] at htot ⊢
        omega
      have hwb := @writeBatches_bound env.upsertResults N
        (search_repositories (env.exec shardIdx)
          (some (min 1000 (N - st.total_saved))) batch_size fuel).batches
        { st with shardCaps := st.shardCaps ++ [(st.total_saved, min 1000 (N - st.total_saved))],
                  reasons := st.reasons ++ [(search_repositories (env.exec shardIdx)
                    (some (min 1000 (N - st.total_saved))) batch_size fuel).reason] }
        (by dsimp only; omega) (fun w hw => h2 w hw)
    · intro st' h
      rw [shardLoop, if_neg hc] at h
      dsimp only at h
      cases hw : writeBatches env.upsertResults
          (search_repositories (env.exec shardIdx) (some (min 1000 (N - st.total_saved))) batch_size fuel).batches
          { st with shardCaps := st.shardCaps ++ [(st.total_saved, min 1000 (N - st.total_saved))],
                    reasons := st.reasons ++ [(search_repositories (env.exec shardIdx) (some (min 1000 (N - st.total_saved))) batch_size fuel).reason] } with
      | error p => rw [hw] at h; cases h
      | ok st2 =>
        rw [hw] at h
        obtain ⟨hb1, hb2, hb3⟩ := hwb.1 st2 hw
        dsimp only at hb1 hb3
        refine (ih (shardIdx + 1) st2 (by omega) hb2 ?_).1 st' h
        rw [hb3]
        intro p hp
        rcases List.mem_append.mp hp with hp1 | hp2
        · exact h3 p hp1
        · rw [List.mem_singleton.mp hp2]
    · intro e st' h
      rw [shardLoop, if_neg hc] at h
      dsimp only at h
      cases hw : writeBatches env.upsertResults
          (search_repositories (env.exec shardIdx) (some (min 1000 (N - st.total_saved))) batch_size fuel).batches
          { st with shardCaps := st.shardCaps ++ [(st.total_saved, min 1000 (N - st.total_saved))],
                    reasons := st.reasons ++ [(search_repositories (env.exec shardIdx) (some (min 1000 (N - st.total_saved))) batch_size fuel).reason] } with
      | error p =>
        rw [hw] at h
        injection h with h'
        subst h'
        obtain ⟨hb1, hb2, hb3⟩ := hwb.2 e st' hw
        dsimp only at hb1 hb3
        refine ⟨by omega, hb2, ?_⟩
        rw [hb3]
        intro p hp
        rcases List.mem_append.mp hp with hp1 | hp2
        · exact h3 p hp1
        · rw [List.mem_singleton.mp hp2]
      | ok st2 =>
        rw [hw] at h
        obtain ⟨hb1, hb2, hb3⟩ := hwb.1 st2 hw
        dsimp only at hb1 hb3
        refine (ih (shardIdx + 1) st2 (by omega) hb2 ?_).2 e st' h
        rw [hb3]
        intro p hp
        rcases List.mem_append.mp hp with hp1 | hp2
        · exact h3 p hp1
        · rw [List.mem_singleton.mp hp2]

/-- **C1.** Target cap of the orchestrator: in any run of
`crawl_repositories` with target `N > 0` against an executor that honors
the requested page size, the cumulative fetched count recorded at every
persistence write never exceeds `N`, the reported `total_crawled` never
exceeds `N`, every shard is started with the local cap
`min(1000, N − fetched-so-far)`, and within a shard every request asks for
exactly `min(configured batch size, remaining shard budget)` items. -/
theorem crawl_repositories_target_cap (env : CrawlEnv) (queries : List StarQuery)
    (N batch_size fuel : ℕ) (res : CrawlResult)
    (hhon : ∀ i, HonorsFirst (env.exec i)) (hN : 0 < N)
    (hok : crawl_repositories env queries N batch_size fuel = .ok res) :
    (∀ w ∈ res.writes, w ≤ N) ∧ res.total_crawled ≤ N ∧
      (∀ p ∈ res.shardCaps, p.2 = min 1000 (N - p.1)) ∧
      (∀ (exec1 : ℕ → ℕ → ExecResult) (cap fuel1 : ℕ), 0 < cap →
        ∀ p ∈ (search_repositories exec1 (some cap) batch_size fuel1).requests,
          p.2 = min batch_size (cap - p.1)) := by
  have hreq : ∀ (exec1 : ℕ → ℕ → ExecResult) (cap fuel1 : ℕ), 0 < cap →
      ∀ p ∈ (search_repositories exec1 (some cap) batch_size fuel1).requests,
        p.2 = min batch_size (cap - p.1) := by
    intro exec1 cap fuel1 hcap p hp
    exact searchGo_requests hcap fuel1 0 ⟨none, 0, batch_size⟩ (Nat.le_refl _)
      (Nat.min_le_left _ _) p hp
  have hb := shardLoop_bound hhon N batch_size fuel queries 0 ⟨0, 0, 0, [], [], []⟩
    (Nat.zero_le N) (fun w hw => absurd hw (List.not_mem_nil w))
    (fun p hp => absurd hp (List.not_mem_nil p))
  rw [crawl_repositories] at hok
  cases hc0 : env.count0 with
  | error e => rw [hc0] at hok; cases hok
  | ok c0 =>
    rw [hc0] at hok
    cases hsl : shardLoop env N batch_size fuel queries 0 ⟨0, 0, 0, [], [], []⟩ with
    | error p =>
      obtain ⟨e, st'⟩ := p
      rw [hsl] at hok
      obtain ⟨h1, h2, h3⟩ := hb.2 e st' hsl
      injection hok with hok'
      subst hok'
      exact ⟨h2, h1, h3, hreq⟩
    | ok st =>
      rw [hsl] at hok
      obtain ⟨h1, h2, h3⟩ := hb.1 st hsl
      cases hcf : env.countFinal with
      | error e =>
        rw [hcf] at hok
        injection hok with hok'
        subst hok'
        exact ⟨h2, h1, h3, hreq⟩
      | ok cf =>
        rw [hcf] at hok
        injection hok with hok'
        subst hok'
        exact ⟨h2, h1, h3, hreq⟩

/-- Witness for C1 at a concrete run: target 5, batch size 2, an executor
returning exactly the requested number of parseable items; the run persists
batches of 2, 2 and 1 items (cumulative writes 2, 4, 5), stops exactly at
the target, and the one started shard carries cap `min 1000 5 = 5`. -/
theorem crawl_repositories_target_cap_witness :
    (∀ w ∈ (⟨true, none, 5, 3, some 0, some 0, [2, 4, 5], [(0, 5)],
        [.capReached]⟩ : CrawlResult).writes, w ≤ 5) ∧
      (⟨true, none, 5, 3, some 0, some 0, [2, 4, 5], [(0, 5)],
        [.capReached]⟩ : CrawlResult).total_crawled ≤ 5 ∧
      (∀ p ∈ (⟨true, none, 5, 3, some 0, some 0, [2, 4, 5], [(0, 5)],
        [.capReached]⟩ : CrawlResult).shardCaps, p.2 = min 1000 (5 - p.1)) ∧
      (∀ (exec1 : ℕ → ℕ → ExecResult) (cap fuel1 : ℕ), 0 < cap →
        ∀ p ∈ (search_repositories exec1 (some cap) 2 fuel1).requests,
          p.2 = min 2 (cap - p.1)) :=
  crawl_repositories_target_cap envC1 [.gt 0, .gt 10] 5 2 4
    ⟨true, none, 5, 3, some 0, some 0, [2, 4, 5], [(0, 5)], [.capReached]⟩
    (fun i j b nodes hnp ec h => by
      injection h with h1 h2 h3
      rw [← h1, List.length_replicate])
    (by decide) rfl

end StarsCrawler
